import Mathlib

/-!
Verification of the SQLite + FAISS resume store (`backend/app/db.py`).

The module keeps three pieces of process-wide state: the `resumes` and
`chunks` SQLite tables, the FAISS `IndexIDMap(IndexFlatIP)` holding one
vector per chunk row, and the allocator cursor `_next_id`.  We embed that
state as an explicit `Store` record and each public function of the module
as a function on it.  Float arithmetic is modelled over the reals; machine
integers are `Int` (ids are 64-bit in FAISS, far from overflow in any
scenario considered here).  Calls that can raise a Python exception return
`Except`; because the SQLite connection keeps uncommitted statements
visible to later reads on the same connection, an insert error also carries
the state it leaves behind.
-/

set_option maxHeartbeats 1000000

noncomputable section

namespace ResumeStore

/-- Python values appearing in the metadata dict built by `fetch_meta`. -/
inductive PyVal where
  | s (v : String)
  | i (n : Int)
  | l (v : List String)
deriving DecidableEq

/-- Caller-supplied resume metadata (the `meta` dict of `insert_resume`). -/
structure Meta where
  resume_id : String
  name : String
  email : String
  skills : List String
  years_experience : Int
deriving DecidableEq

/-- One row of the `resumes` table (db.py:54-63).  The `skills` column holds
`json.dumps(skills)`; since `json.loads` inverts `json.dumps` we model the
column by the string list itself. -/
structure ResumeRow where
  resume_id : String
  name : String
  email : String
  skills : List String
  years_experience : Int
  version : Int
deriving DecidableEq

/-- One row of the `chunks` table (db.py:64-70). -/
structure ChunkRow where
  vector_id : Int
  resume_id : String
  text : String
deriving DecidableEq

/-- Process-wide state of db.py: the two SQLite tables, the FAISS index
contents as `(vector_id, stored vector)` pairs, and the cursor `_next_id`. -/
structure Store where
  resumes : List ResumeRow
  chunks : List ChunkRow
  index : List (Int × List ℝ)
  next_id : Int

/-- Sum of the squares of a vector's entries. -/
def sumSq (v : List ℝ) : ℝ := (v.map (fun x => x ^ 2)).sum

/-- L2 norm of one vector, as computed by `np.linalg.norm` on one row. -/
def l2norm (v : List ℝ) : ℝ := Real.sqrt (sumSq v)

/-- One row of `_l2_normalize` (db.py:25-29): every entry is divided by the
row's L2 norm plus the epsilon 1e-10. -/
def normalizeRow (v : List ℝ) : List ℝ := v.map (fun x => x / (l2norm v + 1e-10))

/-- Model of `_l2_normalize` (db.py:25-29) applied to a plain Python list of
vectors.  On the empty list `np.asarray` yields a 1-D array, so
`np.linalg.norm(..., axis=1)` raises `numpy.AxisError`; otherwise each row
is divided by its norm plus 1e-10. -/
def l2_normalize (m : List (List ℝ)) : Except String (List (List ℝ)) :=
  if m = [] then .error "axis 1 is out of bounds for array of dimension 1"
  else .ok (m.map normalizeRow)

/-- Model of `_next_free_vector_id` (db.py:41-44):
`COALESCE(MAX(vector_id), -1) + 1` over the chunks table. -/
def nextFreeVectorId (chunks : List ChunkRow) : Int :=
  ((chunks.map (fun c => c.vector_id)).foldl max (-1)) + 1

/-- The store state right after a fresh startup (db.py:51-73): empty tables,
empty index, cursor recomputed from the empty chunks table. -/
def initStore : Store :=
  { resumes := [], chunks := [], index := [], next_id := nextFreeVectorId [] }

/-- The resume row written for a `resume_id` not present yet (version 1). -/
def freshRow (m : Meta) : ResumeRow :=
  { resume_id := m.resume_id, name := m.name, email := m.email,
    skills := m.skills, years_experience := m.years_experience, version := 1 }

/-- Model of the metadata upsert (db.py:95-116): an absent `resume_id` gets a
new row with version 1; on conflict all fields are overwritten and the
version becomes the old version plus one. -/
def upsertResume (m : Meta) (rs : List ResumeRow) : List ResumeRow :=
  if rs.any (fun r => r.resume_id == m.resume_id) then
    rs.map (fun r =>
      if r.resume_id = m.resume_id then { freshRow m with version := r.version + 1 }
      else r)
  else rs ++ [freshRow m]

/-- Model of `insert_resume` (db.py:83-129).  The arity check runs before any
mutation.  The metadata upsert executes next; it is visible to reads on the
same connection even before commit.  `_l2_normalize` then raises on an empty
embedding list, aborting the call after the upsert but before any chunk row,
index entry or cursor change; the error carries the state left behind.  On
success the normalized vectors are added under the fresh ids
`_next_id .. _next_id + n - 1`, the chunk rows are appended and the cursor
advances by `n`. -/
def insertResume (m : Meta) (chunks : List String) (embeddings : List (List ℝ))
    (st : Store) : Except (String × Store) Store :=
  if chunks.length ≠ embeddings.length then
    .error ("chunks and embeddings must have identical length", st)
  else
    let resumes' := upsertResume m st.resumes
    match l2_normalize embeddings with
    | .error e => .error (e, { st with resumes := resumes' })
    | .ok normed =>
      let vecIds := (List.range chunks.length).map (fun (i : Nat) => st.next_id + (i : Int))
      .ok { resumes := resumes',
            chunks := st.chunks ++ (vecIds.zip chunks).map
              (fun p => { vector_id := p.1, resume_id := m.resume_id, text := p.2 }),
            index := st.index ++ vecIds.zip normed,
            next_id := st.next_id + (chunks.length : Int) }

/-- Observable state after an `insert_resume` call, error or not: on error
the state carried by the exception is what the process keeps seeing. -/
def applyInsert (m : Meta) (chunks : List String) (embeddings : List (List ℝ))
    (st : Store) : Store :=
  match insertResume m chunks embeddings st with
  | .ok s => s
  | .error p => p.2

/-- Model of `delete_resume` (db.py:132-146): collect the document's vector
ids, remove them from the index, delete its chunk and resume rows.  The
cursor `_next_id` is never touched. -/
def deleteResume (rid : String) (st : Store) : Store :=
  let vecIds := (st.chunks.filter (fun c => c.resume_id == rid)).map (fun c => c.vector_id)
  { resumes := st.resumes.filter (fun r => !(r.resume_id == rid)),
    chunks := st.chunks.filter (fun c => !(c.resume_id == rid)),
    index := st.index.filter (fun p => !(vecIds.contains p.1)),
    next_id := st.next_id }

/-- Model of `fetch_meta` (db.py:149-161): the dict with exactly the keys
"name", "skills" and "years_experience" for the resume row, or `None`. -/
def fetchMeta (rid : String) (st : Store) : Option (List (String × PyVal)) :=
  match st.resumes.find? (fun r => r.resume_id == rid) with
  | none => none
  | some r => some [("name", .s r.name), ("skills", .l r.skills),
                    ("years_experience", .i r.years_experience)]

/-- Model of `get_chunks_for_resume` (db.py:206-212): the `(vector_id, text)`
pairs of the document's chunk rows, `ORDER BY vector_id`. -/
def getChunks (rid : String) (st : Store) : List (Int × String) :=
  ((st.chunks.filter (fun c => c.resume_id == rid)).insertionSort
      (fun a b => a.vector_id ≤ b.vector_id)).map (fun c => (c.vector_id, c.text))

/-- Inner product of two vectors, the `IndexFlatIP` score. -/
def dot (a b : List ℝ) : ℝ := ((a.zip b).map (fun p => p.1 * p.2)).sum

/-- Descending-score order on FAISS `(score, id)` hits. -/
def scoreGe (a b : ℝ × Int) : Prop := b.1 ≤ a.1

instance : DecidableRel scoreGe := fun a b => Real.decidableLE b.1 a.1

instance : IsTotal (ℝ × Int) scoreGe := ⟨fun a b => le_total b.1 a.1⟩

instance : IsTrans (ℝ × Int) scoreGe := ⟨fun _ _ _ h1 h2 => le_trans h2 h1⟩

/-- Exact search of the flat inner-product index for one query row: score
every stored vector, order by descending score, keep the first `k`.  This
models FAISS `IndexIDMap(IndexFlatIP)` search; its padding of a result row
with the sentinel id -1 happens only when `k` exceeds the number of stored
vectors, which the caller's clamp `k = min(top_k, ntotal)` prevents, so it
is modelled as plain truncation.  Dimension checks are not modelled (no
claim exercises them; a mismatch would be caught like any engine failure). -/
def engineTopK (idx : List (Int × List ℝ)) (q : List ℝ) (k : Nat) : List (ℝ × Int) :=
  ((idx.map (fun p => (dot q p.2, p.1))).insertionSort scoreGe).take k

/-- Model of `index.search(q, k)` on a query batch: FAISS raises for
`k ≤ 0`, otherwise returns one descending top-`k` hit list per query row. -/
def faissSearch (idx : List (Int × List ℝ)) (qs : List (List ℝ)) (k : Int) :
    Except String (List (List (ℝ × Int))) :=
  if k ≤ 0 then .error "k should be positive"
  else .ok (qs.map (fun q => engineTopK idx q k.toNat))

/-- The input shapes `search_vectors` accepts for `query_vec`: a 1-D or 2-D
`np.ndarray`, the empty Python list, a non-empty Python list of floats, or a
non-empty Python list of lists. -/
inductive QueryVec where
  | nd1 (v : List ℝ)
  | nd2 (m : List (List ℝ))
  | emptyList
  | listF (x : ℝ) (v : List ℝ)
  | listL (r : List ℝ) (m : List (List ℝ))

/-- The query batch `search_vectors` builds from its input (db.py:169-174);
`none` encodes the `ValueError` branch taken for the empty Python list. -/
def toBatch : QueryVec → Option (List (List ℝ))
  | .nd1 v => some [v]
  | .nd2 m => some m
  | .emptyList => none
  | .listF x v => some [x :: v]
  | .listL r m => some (r :: m)

/-- Model of `search_vectors` (db.py:164-187).  The batch is normalized (a
2-D ndarray input keeps two dimensions under `np.asarray`, and list inputs
reaching this point are non-empty, so normalization never raises here); an
empty index short-circuits to `[]`; otherwise the engine is called with
`k = min(top_k, ntotal)` inside `try`, and any engine failure becomes `[]`.
Only row 0 of the per-query results is read (`ids[0]`); indexing row 0 of an
empty result array raises inside the `try` and also yields `[]`.  Hits with
the sentinel id -1 are filtered out. -/
def searchVectors (query : QueryVec) (top_k : Int) (st : Store) :
    Except String (List (ℝ × Int)) :=
  match toBatch query with
  | none => .error "query_vec must be a 1-D/2-D ndarray or a non-empty list"
  | some qs =>
    let q := qs.map normalizeRow
    if st.index.length = 0 then .ok []
    else
      match faissSearch st.index q (min top_k (st.index.length : Int)) with
      | .error _ => .ok []
      | .ok [] => .ok []
      | .ok (r0 :: _) => .ok (r0.filter (fun p => !(p.2 == (-1 : Int))))

/-- One mutating call against the store. -/
inductive Op where
  | ins (m : Meta) (chunks : List String) (embeddings : List (List ℝ))
  | del (rid : String)

/-- State after one mutating call (db.py leaves the applied part in place on
an error, see `applyInsert`). -/
def applyOp (st : Store) : Op → Store
  | .ins m c e => applyInsert m c e st
  | .del r => deleteResume r st

/-- State after a sequence of mutating calls within one process. -/
def runOps (st : Store) : List Op → Store
  | [] => st
  | op :: t => runOps (applyOp st op) t

/-- The vector ids an operation hands out: an insert passing the arity check
computes `np.arange(_next_id, _next_id + n)` (db.py:119); a rejected insert
and a delete issue none.  (For `n = 0` the range is empty, matching the
abort inside `_l2_normalize`.) -/
def issuedIds (st : Store) : Op → List Int
  | .ins _ c e =>
    if c.length = e.length then (List.range c.length).map (fun (i : Nat) => st.next_id + (i : Int))
    else []
  | .del _ => []

/-- A concrete metadata record for document "D1". -/
def metaD1 : Meta :=
  { resume_id := "D1", name := "Ada", email := "a@x", skills := ["python"],
    years_experience := 3 }

/-- A concrete metadata record for document "D2". -/
def metaD2 : Meta :=
  { resume_id := "D2", name := "Bob", email := "b@x", skills := ["java"],
    years_experience := 5 }

/-- A concrete store whose index holds the single vector `[1]` under id 0. -/
def oneVecStore : Store :=
  { resumes := [], chunks := [], index := [(0, [1])], next_id := 1 }

/-- A concrete store whose index holds `[1, 0]` under id 0 and `[0, 1]`
under id 1. -/
def twoVecStore : Store :=
  { resumes := [], chunks := [], index := [(0, [1, 0]), (1, [0, 1])], next_id := 2 }

/-! ### Unfolding lemmas for `insert_resume` -/

theorem insertResume_arity (m : Meta) (c : List String) (e : List (List ℝ)) (st : Store)
    (h : c.length ≠ e.length) :
    insertResume m c e st = .error ("chunks and embeddings must have identical length", st) := by
  simp [insertResume, h]

theorem insertResume_emptyEmb (m : Meta) (st : Store) :
    insertResume m [] [] st =
      .error ("axis 1 is out of bounds for array of dimension 1",
              { st with resumes := upsertResume m st.resumes }) := by
  simp [insertResume, l2_normalize]

theorem insertResume_ok (m : Meta) (c : List String) (e : List (List ℝ)) (st : Store)
    (h : c.length = e.length) (he : e ≠ []) :
    insertResume m c e st =
      .ok { resumes := upsertResume m st.resumes,
            chunks := st.chunks ++
              ((((List.range c.length).map (fun (i : Nat) => st.next_id + (i : Int))).zip c).map
                (fun p => { vector_id := p.1, resume_id := m.resume_id, text := p.2 })),
            index := st.index ++
              ((List.range c.length).map (fun (i : Nat) => st.next_id + (i : Int))).zip
                (e.map normalizeRow),
            next_id := st.next_id + (c.length : Int) } := by
  simp [insertResume, h, l2_normalize, he]

theorem applyInsert_arity (m : Meta) (c : List String) (e : List (List ℝ)) (st : Store)
    (h : c.length ≠ e.length) : applyInsert m c e st = st := by
  simp [applyInsert, insertResume_arity m c e st h]

theorem applyInsert_emptyEmb (m : Meta) (st : Store) :
    applyInsert m [] [] st = { st with resumes := upsertResume m st.resumes } := by
  simp [applyInsert, insertResume_emptyEmb]

theorem applyInsert_ok (m : Meta) (c : List String) (e : List (List ℝ)) (st : Store)
    (h : c.length = e.length) (he : e ≠ []) :
    applyInsert m c e st =
      { resumes := upsertResume m st.resumes,
        chunks := st.chunks ++
          ((((List.range c.length).map (fun (i : Nat) => st.next_id + (i : Int))).zip c).map
            (fun p => { vector_id := p.1, resume_id := m.resume_id, text := p.2 })),
        index := st.index ++
          ((List.range c.length).map (fun (i : Nat) => st.next_id + (i : Int))).zip
            (e.map normalizeRow),
        next_id := st.next_id + (c.length : Int) } := by
  simp [applyInsert, insertResume_ok m c e st h he]

theorem applyInsert_resumes (m : Meta) (c : List String) (e : List (List ℝ)) (st : Store)
    (h : c.length = e.length) :
    (applyInsert m c e st).resumes = upsertResume m st.resumes := by
  by_cases he : e = []
  · subst he
    have hc : c = [] := List.length_eq_zero.mp h
    subst hc
    rw [applyInsert_emptyEmb]
  · rw [applyInsert_ok m c e st h he]

/-! ### C8 — arity mismatch is rejected with no mutation -/

/-- C8: an insert whose chunk and embedding counts disagree fails with the
ValueError and leaves the store exactly as it was: no resume row, chunk row,
index entry or cursor change (the check runs before any statement). -/
theorem arity_mismatch_no_mutation (m : Meta) (c : List String) (e : List (List ℝ))
    (st : Store) (h : c.length ≠ e.length) :
    insertResume m c e st = .error ("chunks and embeddings must have identical length", st)
    ∧ applyInsert m c e st = st :=
  ⟨insertResume_arity m c e st h, applyInsert_arity m c e st h⟩

/-- Witness for C8 at a concrete input: one chunk, zero embeddings. -/
theorem arity_mismatch_no_mutation_witness :
    ((["a"] : List String).length ≠ ([] : List (List ℝ)).length)
    ∧ (insertResume metaD1 ["a"] [] initStore
        = .error ("chunks and embeddings must have identical length", initStore)
       ∧ applyInsert metaD1 ["a"] [] initStore = initStore) :=
  ⟨by decide, arity_mismatch_no_mutation metaD1 ["a"] [] initStore (by decide)⟩

/-! ### C10 — zero-chunk insert -/

/-- C10 amended: an insert with zero chunks and zero embeddings does not
succeed: `_l2_normalize([])` sees a 1-D `np.asarray` and raises the numpy
axis error, after the metadata upsert was executed (visible on the same
connection, though uncommitted) and before any chunk row, index entry or
cursor change. -/
theorem zero_chunk_insert_raises (m : Meta) (st : Store) :
    insertResume m [] [] st =
      .error ("axis 1 is out of bounds for array of dimension 1",
              { st with resumes := upsertResume m st.resumes })
    ∧ (applyInsert m [] [] st).chunks = st.chunks
    ∧ (applyInsert m [] [] st).index = st.index
    ∧ (applyInsert m [] [] st).next_id = st.next_id
    ∧ (applyInsert m [] [] st).resumes = upsertResume m st.resumes := by
  refine ⟨insertResume_emptyEmb m st, ?_, ?_, ?_, ?_⟩ <;> rw [applyInsert_emptyEmb]

/-- C10 counterexample: at a concrete zero-chunk input the insert call is an
error, not a success. -/
theorem zero_chunk_insert_cex :
    (insertResume metaD1 [] [] initStore).toOption = none := by
  rw [insertResume_emptyEmb]
  rfl

/-! ### C9 — the empty list as query is rejected -/

/-- C9: the empty Python list as `query_vec` takes the `ValueError` branch of
`search_vectors` for every store (empty index or not) and every `top_k`; it
never returns a result list. -/
theorem empty_list_query_rejected (top_k : Int) (st : Store) :
    searchVectors QueryVec.emptyList top_k st
      = .error "query_vec must be a 1-D/2-D ndarray or a non-empty list" := rfl

/-! ### C7 — empty index returns the empty list -/

/-- C7: a query that passes shape validation, searched against an empty
index, returns the empty list immediately, without an error, for every
`top_k`. -/
theorem empty_index_returns_empty (query : QueryVec) (top_k : Int) (st : Store)
    (hq : (toBatch query).isSome = true) (hidx : st.index = []) :
    searchVectors query top_k st = .ok [] := by
  obtain ⟨qs, hqs⟩ := Option.isSome_iff_exists.mp hq
  simp [searchVectors, hqs, hidx]

/-- Witness for C7: a 1-D query on the fresh empty store. -/
theorem empty_index_returns_empty_witness :
    ((toBatch (QueryVec.nd1 [1])).isSome = true ∧ initStore.index = [])
    ∧ searchVectors (QueryVec.nd1 [1]) 10 initStore = .ok [] :=
  ⟨⟨rfl, rfl⟩, empty_index_returns_empty (QueryVec.nd1 [1]) 10 initStore rfl rfl⟩

/-! ### C1 — re-insert does not delete the old chunks -/

/-- C1: behavior at the failing input: after inserting "D1" with chunk "a"
and re-inserting "D1" with chunk "b", the first insert's chunk row is still
there — `get_chunks_for_resume` returns the old chunk and the new one — and
the old vector id 0 is still in the index.  `insert_resume` never deletes
the previous rows or vectors of a re-inserted document; only the metadata
row is replaced, although its own docstring says "Insert *or* replace a
resume and its vector chunks". -/
theorem reinsert_keeps_old_chunks :
    getChunks "D1" (applyInsert metaD1 ["b"] [[]] (applyInsert metaD1 ["a"] [[]] initStore))
      = [(0, "a"), (1, "b")]
    ∧ (applyInsert metaD1 ["b"] [[]] (applyInsert metaD1 ["a"] [[]] initStore)).index.map
        Prod.fst = [0, 1] := by
  constructor
  · decide
  · decide

/-! ### C5 — version is bumped to 2 but fetch_meta does not expose it -/

theorem lookup_version_none (v1 v2 v3 : PyVal) :
    (([("name", v1), ("skills", v2), ("years_experience", v3)] :
        List (String × PyVal)).lookup "version") = none := rfl

theorem fetchMeta_of_mem (rid : String) (st : Store)
    (h : ∃ r ∈ st.resumes, r.resume_id = rid) :
    ((fetchMeta rid st).getD []).lookup "version" = none
    ∧ (fetchMeta rid st).isSome = true := by
  have hsome : (st.resumes.find? (fun r => r.resume_id == rid)).isSome := by
    rw [List.find?_isSome]
    obtain ⟨r, hr, he⟩ := h
    exact ⟨r, hr, by simpa using he⟩
  obtain ⟨r0, hr0⟩ := Option.isSome_iff_exists.mp hsome
  constructor
  · simp only [fetchMeta, hr0]
    exact lookup_version_none _ _ _
  · simp only [fetchMeta, hr0]
    rfl

/-- C5 amended: after an insert and a re-insert of the same (previously
absent) document id, the stored resumes row carries version 2, and
`fetch_meta` returns the metadata dict — but that dict has no "version" key
at all, so the version is not exposed to the caller. -/
theorem reinsert_version_two (m : Meta) (st : Store)
    (c1 : List String) (e1 : List (List ℝ)) (c2 : List String) (e2 : List (List ℝ))
    (habs : ∀ r ∈ st.resumes, r.resume_id ≠ m.resume_id)
    (h1 : c1.length = e1.length) (h2 : c2.length = e2.length) :
    (∃ r ∈ (applyInsert m c2 e2 (applyInsert m c1 e1 st)).resumes,
        r.resume_id = m.resume_id ∧ r.version = 2)
    ∧ ((fetchMeta m.resume_id
          (applyInsert m c2 e2 (applyInsert m c1 e1 st))).getD []).lookup "version" = none
    ∧ (fetchMeta m.resume_id (applyInsert m c2 e2 (applyInsert m c1 e1 st))).isSome = true := by
  have hr1 := applyInsert_resumes m c1 e1 st h1
  have hr2 := applyInsert_resumes m c2 e2 (applyInsert m c1 e1 st) h2
  have hany : st.resumes.any (fun r => r.resume_id == m.resume_id) = false := by
    rw [List.any_eq_false]
    intro r hr
    simpa using habs r hr
  have hu1 : upsertResume m st.resumes = st.resumes ++ [freshRow m] := by
    rw [upsertResume, if_neg (by simp [hany])]
  have hmem : ((st.resumes ++ [freshRow m]).any (fun r => r.resume_id == m.resume_id)) = true := by
    simp [freshRow]
  have hu2 : upsertResume m (st.resumes ++ [freshRow m]) =
      st.resumes.map (fun r =>
        if r.resume_id = m.resume_id then { freshRow m with version := r.version + 1 } else r)
      ++ [{ freshRow m with version := 2 }] := by
    rw [upsertResume, if_pos hmem, List.map_append]
    simp [freshRow]
  have hres : (applyInsert m c2 e2 (applyInsert m c1 e1 st)).resumes =
      st.resumes.map (fun r =>
        if r.resume_id = m.resume_id then { freshRow m with version := r.version + 1 } else r)
      ++ [{ freshRow m with version := 2 }] := by
    rw [hr2, hr1, hu1, hu2]
  have hmem2 : { freshRow m with version := 2 } ∈
      (applyInsert m c2 e2 (applyInsert m c1 e1 st)).resumes := by
    rw [hres]
    exact List.mem_append_right _ (List.mem_singleton.mpr rfl)
  have hfm := fetchMeta_of_mem m.resume_id (applyInsert m c2 e2 (applyInsert m c1 e1 st))
    ⟨{ freshRow m with version := 2 }, hmem2, by simp [freshRow]⟩
  exact ⟨⟨{ freshRow m with version := 2 }, hmem2, by simp [freshRow], rfl⟩, hfm.1, hfm.2⟩

/-- C5 counterexample: after the two concrete inserts of "D1", fetch_meta
returns a dict but the dict has no "version" key, so no version value 2 (nor
any other) is returned. -/
theorem fetchMeta_no_version_cex :
    (((fetchMeta "D1" (applyInsert metaD1 ["b"] [[]]
        (applyInsert metaD1 ["a"] [[]] initStore))).getD []).lookup "version" = none)
    ∧ (fetchMeta "D1" (applyInsert metaD1 ["b"] [[]]
        (applyInsert metaD1 ["a"] [[]] initStore))).isSome = true := by
  constructor
  · decide
  · decide

/-- Witness for C5 at concrete one-chunk inserts of "D1" on the fresh store. -/
theorem reinsert_version_two_witness :
    ((∀ r ∈ initStore.resumes, r.resume_id ≠ metaD1.resume_id)
      ∧ (["a"] : List String).length = ([[]] : List (List ℝ)).length
      ∧ (["b"] : List String).length = ([[]] : List (List ℝ)).length)
    ∧ ((∃ r ∈ (applyInsert metaD1 ["b"] [[]] (applyInsert metaD1 ["a"] [[]] initStore)).resumes,
          r.resume_id = metaD1.resume_id ∧ r.version = 2)
       ∧ ((fetchMeta metaD1.resume_id
            (applyInsert metaD1 ["b"] [[]]
              (applyInsert metaD1 ["a"] [[]] initStore))).getD []).lookup "version" = none
       ∧ (fetchMeta metaD1.resume_id
            (applyInsert metaD1 ["b"] [[]]
              (applyInsert metaD1 ["a"] [[]] initStore))).isSome = true) :=
  ⟨⟨by decide, rfl, rfl⟩,
   reinsert_version_two metaD1 initStore ["a"] [[]] ["b"] [[]] (by decide) rfl rfl⟩

/-! ### C2 — vector ids grow strictly and are never reused -/

theorem nextId_applyOp_le (st : Store) (op : Op) : st.next_id ≤ (applyOp st op).next_id := by
  cases op with
  | ins m c e =>
    by_cases h : c.length = e.length
    · by_cases he : e = []
      · subst he
        have hc : c = [] := List.length_eq_zero.mp h
        subst hc
        show st.next_id ≤ (applyInsert m [] [] st).next_id
        rw [applyInsert_emptyEmb]
      · show st.next_id ≤ (applyInsert m c e st).next_id
        rw [applyInsert_ok m c e st h he]
        simp
    · show st.next_id ≤ (applyInsert m c e st).next_id
      rw [applyInsert_arity m c e st h]
  | del r => exact le_refl _

theorem issuedIds_ins (st : Store) (m : Meta) (c : List String) (e : List (List ℝ))
    (h : c.length = e.length) :
    issuedIds st (.ins m c e)
      = (List.range c.length).map (fun (i : Nat) => st.next_id + (i : Int)) := by
  show (if c.length = e.length then _ else _) = _
  rw [if_pos h]

theorem issuedIds_bounds (st : Store) (op : Op) :
    ∀ a ∈ issuedIds st op, st.next_id ≤ a ∧ a < (applyOp st op).next_id := by
  intro a ha
  cases op with
  | del r => simp [issuedIds] at ha
  | ins m c e =>
    by_cases h : c.length = e.length
    · rw [issuedIds_ins st m c e h, List.mem_map] at ha
      obtain ⟨i, hi, rfl⟩ := ha
      rw [List.mem_range] at hi
      have he : e ≠ [] := by
        intro he
        subst he
        have hc0 : c.length = 0 := h
        omega
      refine ⟨by omega, ?_⟩
      show st.next_id + (i : Int) < (applyInsert m c e st).next_id
      rw [applyInsert_ok m c e st h he]
      show st.next_id + (i : Int) < st.next_id + (c.length : Int)
      omega
    · simp [issuedIds, h] at ha

theorem issuedIds_nodup (st : Store) (op : Op) : (issuedIds st op).Nodup := by
  cases op with
  | del r => simp [issuedIds]
  | ins m c e =>
    by_cases h : c.length = e.length
    · rw [issuedIds_ins st m c e h]
      refine List.Nodup.map ?_ (List.nodup_range _)
      intro x y hxy
      have hxy' : st.next_id + (x : Int) = st.next_id + (y : Int) := hxy
      omega
    · simp [issuedIds, h]

theorem runOps_append (st : Store) (l1 l2 : List Op) :
    runOps st (l1 ++ l2) = runOps (runOps st l1) l2 := by
  induction l1 generalizing st with
  | nil => rfl
  | cons op tl ih => simp [runOps, ih]

theorem nextId_runOps_le (st : Store) (l : List Op) : st.next_id ≤ (runOps st l).next_id := by
  induction l generalizing st with
  | nil => exact le_refl _
  | cons op tl ih => exact le_trans (nextId_applyOp_le st op) (ih (applyOp st op))

theorem runOps_take_succ (st : Store) (t : List Op) (n : Nat) (hn : n < t.length) :
    runOps st (t.take (n + 1)) = applyOp (runOps st (t.take n)) t[n] := by
  rw [List.take_succ, List.getElem?_eq_getElem hn]
  rw [show (some t[n]).toList = [t[n]] from rfl]
  rw [runOps_append]
  rfl

theorem nextId_runOps_take_le (st : Store) (t : List Op) {i j : Nat} (hij : i ≤ j) :
    (runOps st (t.take i)).next_id ≤ (runOps st (t.take j)).next_id := by
  induction j with
  | zero =>
    have : i = 0 := by omega
    subst this
    exact le_refl _
  | succ n ih =>
    rcases Nat.lt_or_ge i (n + 1) with hlt | hge
    · have hin : i ≤ n := by omega
      by_cases hn : n < t.length
      · rw [runOps_take_succ st t n hn]
        exact le_trans (ih hin) (nextId_applyOp_le _ _)
      · rw [show t.take (n + 1) = t.take n from by
          rw [List.take_of_length_le (by omega), List.take_of_length_le (by omega)]]
        exact ih hin
    · have : i = n + 1 := by omega
      subst this
      exact le_refl _

/-- C2: within one process, for any sequence of insert and delete calls from
any starting state, the vector ids issued by a later operation are all
strictly greater than every id issued by an earlier operation (so an id is
never issued twice), the ids of one insert are pairwise distinct, and delete
never decrements the allocator cursor. -/
theorem insert_ids_strictly_increase (st0 : Store) (t : List Op) (i j : Nat)
    (hi : i < t.length) (hj : j < t.length) (hij : i < j) :
    (∀ a ∈ issuedIds (runOps st0 (t.take i)) t[i],
       ∀ b ∈ issuedIds (runOps st0 (t.take j)) t[j], a < b)
    ∧ (issuedIds (runOps st0 (t.take i)) t[i]).Nodup
    ∧ ∀ (rid : String) (st : Store), (deleteResume rid st).next_id = st.next_id := by
  refine ⟨?_, issuedIds_nodup _ _, fun _ _ => rfl⟩
  intro a ha b hb
  have h1 := (issuedIds_bounds (runOps st0 (t.take i)) t[i] a ha).2
  have h2 := (issuedIds_bounds (runOps st0 (t.take j)) t[j] b hb).1
  have h3 : (runOps st0 (t.take (i + 1))).next_id ≤ (runOps st0 (t.take j)).next_id :=
    nextId_runOps_take_le st0 t (by omega)
  rw [runOps_take_succ st0 t i hi] at h3
  omega

/-- The spec's allocator scenario as a trace: insert D1 (2 chunks), insert
D2 (3 chunks), delete D1, then a third insert (1 chunk). -/
def scenarioTrace : List Op :=
  [.ins metaD1 ["a", "b"] [[], []],
   .ins metaD2 ["c", "d", "e"] [[], [], []],
   .del "D1",
   .ins metaD1 ["f"] [[]]]

/-- Witness for C2 on the spec's scenario: the first insert issues [0, 1],
and the insert performed after inserting D2 (3 chunks) and deleting D1
issues exactly [5] — the deletion did not move the cursor back. -/
theorem insert_ids_strictly_increase_witness :
    ((0 : Nat) < scenarioTrace.length ∧ (3 : Nat) < scenarioTrace.length ∧ (0 : Nat) < 3)
    ∧ ((∀ a ∈ issuedIds (runOps initStore (scenarioTrace.take 0)) scenarioTrace[0],
          ∀ b ∈ issuedIds (runOps initStore (scenarioTrace.take 3)) scenarioTrace[3], a < b)
       ∧ (issuedIds (runOps initStore (scenarioTrace.take 0)) scenarioTrace[0]).Nodup
       ∧ ∀ (rid : String) (st : Store), (deleteResume rid st).next_id = st.next_id)
    ∧ issuedIds (runOps initStore (scenarioTrace.take 0)) scenarioTrace[0] = [0, 1]
    ∧ issuedIds (runOps initStore (scenarioTrace.take 3)) scenarioTrace[3] = [5] :=
  ⟨⟨by decide, by decide, by decide⟩,
   insert_ids_strictly_increase initStore scenarioTrace 0 3 (by decide) (by decide) (by decide),
   by decide, by decide⟩

/-! ### C3 — norms of stored vectors -/

theorem sumSq_nonneg (v : List ℝ) : 0 ≤ sumSq v := by
  apply List.sum_nonneg
  intro x hx
  rw [List.mem_map] at hx
  obtain ⟨y, _, rfl⟩ := hx
  positivity

theorem l2norm_nonneg (v : List ℝ) : 0 ≤ l2norm v := Real.sqrt_nonneg _

theorem sumSq_map_div (v : List ℝ) (c : ℝ) :
    sumSq (v.map (fun x => x / c)) = sumSq v / c ^ 2 := by
  unfold sumSq
  rw [List.map_map]
  have h1 : ((fun x => x ^ 2) ∘ fun x => x / c) = fun x : ℝ => x ^ 2 * (c ^ 2)⁻¹ := by
    funext x
    show (x / c) ^ 2 = x ^ 2 * (c ^ 2)⁻¹
    rw [div_eq_mul_inv, mul_pow, inv_pow]
  rw [h1, List.sum_map_mul_right, ← div_eq_mul_inv]

theorem l2norm_map_div (v : List ℝ) (c : ℝ) (hc : 0 ≤ c) :
    l2norm (v.map (fun x => x / c)) = l2norm v / c := by
  unfold l2norm
  rw [sumSq_map_div, Real.sqrt_div (sumSq_nonneg v), Real.sqrt_sq hc]

theorem l2norm_normalizeRow (v : List ℝ) :
    l2norm (normalizeRow v) = l2norm v / (l2norm v + 1e-10) := by
  unfold normalizeRow
  exact l2norm_map_div v _ (add_nonneg (l2norm_nonneg v) (by norm_num))

theorem norm_ratio_close (n : ℝ) (hn : 1e-4 ≤ n) : |n / (n + 1e-10) - 1| ≤ 1e-6 := by
  have h0 : (0 : ℝ) < 1e-4 + 1e-10 := by norm_num
  have hpos : (0 : ℝ) < n + 1e-10 := by linarith
  have heq : n / (n + 1e-10) - 1 = -(1e-10 / (n + 1e-10)) := by
    field_simp
  rw [heq, abs_neg, abs_of_nonneg (div_nonneg (by norm_num) hpos.le)]
  rw [div_le_iff₀ hpos]
  nlinarith

theorem applyInsert_index (m : Meta) (c : List String) (e : List (List ℝ)) (st : Store)
    (h : c.length = e.length) (he : e ≠ []) :
    (applyInsert m c e st).index
      = st.index ++ ((List.range c.length).map (fun (i : Nat) => st.next_id + (i : Int))).zip
          (e.map normalizeRow) := by
  rw [applyInsert_ok m c e st h he]

/-- C3 amended: every vector that an insert stores into the index — beyond
those already present — is the normalization of a caller-supplied vector,
and provided the caller-supplied vectors have L2 norm at least 1e-4, each
stored vector's L2 norm is within 1e-6 of 1.  (For smaller input norms the
epsilon 1e-10 added to the divisor drags the stored norm below the
tolerance; see the counterexample for the all-zero vector.) -/
theorem stored_vectors_unit_norm (m : Meta) (c : List String) (e : List (List ℝ))
    (st : Store) (hn : ∀ v ∈ e, 1e-4 ≤ l2norm v) :
    ∀ p ∈ (applyInsert m c e st).index, p ∈ st.index ∨ |l2norm p.2 - 1| ≤ 1e-6 := by
  intro p hp
  by_cases h : c.length = e.length
  · by_cases he : e = []
    · subst he
      have hc : c = [] := List.length_eq_zero.mp h
      subst hc
      rw [applyInsert_emptyEmb] at hp
      exact Or.inl hp
    · rw [applyInsert_index m c e st h he, List.mem_append] at hp
      rcases hp with hp | hp
      · exact Or.inl hp
      · right
        obtain ⟨p1, p2⟩ := p
        have hv := (List.of_mem_zip hp).2
        rw [List.mem_map] at hv
        obtain ⟨v, hvmem, hveq⟩ := hv
        show |l2norm p2 - 1| ≤ 1e-6
        rw [← hveq, l2norm_normalizeRow]
        exact norm_ratio_close _ (hn v hvmem)
  · rw [applyInsert_arity m c e st h] at hp
    exact Or.inl hp

/-- C3 counterexample: inserting the all-zero vector `[0]` stores the vector
`[0]` itself (its norm is 0, so the division by `0 + 1e-10` leaves every
entry 0), and the stored vector's L2 norm 0 is not within 1e-6 of 1. -/
theorem zero_vector_stored_cex :
    (applyInsert metaD1 ["a"] [[0]] initStore).index = [(0, [(0 : ℝ)])]
    ∧ ¬ (|l2norm [(0 : ℝ)] - 1| ≤ 1e-6) := by
  have hnr : normalizeRow [(0 : ℝ)] = [(0 : ℝ)] := by
    unfold normalizeRow
    simp
  constructor
  · rw [applyInsert_index metaD1 ["a"] [[0]] initStore (by decide) (by simp)]
    simp [initStore, nextFreeVectorId, hnr, List.range_succ]
  · have h0 : l2norm [(0 : ℝ)] = 0 := by
      unfold l2norm sumSq
      simp
    rw [h0]
    rw [show |(0 : ℝ) - 1| = 1 from by rw [zero_sub, abs_neg, abs_one]]
    norm_num

/-- Witness for C3 at the unit vector `[1]` inserted into the fresh store. -/
theorem stored_vectors_unit_norm_witness :
    (∀ v ∈ ([[1]] : List (List ℝ)), 1e-4 ≤ l2norm v)
    ∧ (∀ p ∈ (applyInsert metaD1 ["a"] [[1]] initStore).index,
        p ∈ initStore.index ∨ |l2norm p.2 - 1| ≤ 1e-6) := by
  have h1 : l2norm [(1 : ℝ)] = 1 := by
    unfold l2norm sumSq
    simp
  have hn : ∀ v ∈ ([[1]] : List (List ℝ)), 1e-4 ≤ l2norm v := by
    intro v hv
    rw [List.mem_singleton] at hv
    subst hv
    rw [h1]
    norm_num
  exact ⟨hn, stored_vectors_unit_norm metaD1 ["a"] [[1]] initStore hn⟩

/-! ### Engine search lemmas -/

theorem engineTopK_length (idx : List (Int × List ℝ)) (q : List ℝ) (k : Nat) :
    (engineTopK idx q k).length = min k idx.length := by
  unfold engineTopK
  rw [List.length_take, List.length_insertionSort, List.length_map]

theorem engineTopK_sorted (idx : List (Int × List ℝ)) (q : List ℝ) (k : Nat) :
    List.Pairwise scoreGe (engineTopK idx q k) := by
  unfold engineTopK
  exact List.Pairwise.sublist (List.take_sublist _ _) (List.sorted_insertionSort scoreGe _)

theorem engineTopK_ids (idx : List (Int × List ℝ)) (q : List ℝ) (k : Nat) :
    ∀ p ∈ engineTopK idx q k, ∃ w ∈ idx, p.2 = w.1 := by
  intro p hp
  unfold engineTopK at hp
  have hp1 := List.mem_of_mem_take hp
  rw [List.mem_insertionSort, List.mem_map] at hp1
  obtain ⟨w, hw, rfl⟩ := hp1
  exact ⟨w, hw, rfl⟩

theorem engineTopK_pair_left (i0 i1 : Int) (v0 v1 q : List ℝ)
    (h : dot q v1 ≤ dot q v0) :
    engineTopK [(i0, v0), (i1, v1)] q 1 = [(dot q v0, i0)] := by
  have h' : scoreGe (dot q v0, i0) (dot q v1, i1) := h
  unfold engineTopK
  simp only [List.map_cons, List.map_nil]
  rw [show List.insertionSort scoreGe [(dot q v0, i0), (dot q v1, i1)]
      = List.orderedInsert scoreGe (dot q v0, i0) [(dot q v1, i1)] from rfl]
  simp only [List.orderedInsert, if_pos h']
  rfl

theorem engineTopK_pair_right (i0 i1 : Int) (v0 v1 q : List ℝ)
    (h : ¬ (dot q v1 ≤ dot q v0)) :
    engineTopK [(i0, v0), (i1, v1)] q 1 = [(dot q v1, i1)] := by
  have h' : ¬ scoreGe (dot q v0, i0) (dot q v1, i1) := h
  unfold engineTopK
  simp only [List.map_cons, List.map_nil]
  rw [show List.insertionSort scoreGe [(dot q v0, i0), (dot q v1, i1)]
      = List.orderedInsert scoreGe (dot q v0, i0) [(dot q v1, i1)] from rfl]
  simp only [List.orderedInsert, if_neg h', List.orderedInsert_nil]
  rfl

theorem searchVectors_nd2_ok (st : Store) (q : List ℝ) (qs : List (List ℝ)) (k : Int)
    (hne : st.index ≠ []) (hk : 1 ≤ k) :
    searchVectors (QueryVec.nd2 (q :: qs)) k st
      = .ok ((engineTopK st.index (normalizeRow q)
            (min k (st.index.length : Int)).toNat).filter
              (fun p => !(p.2 == (-1 : Int)))) := by
  have hlen : st.index.length ≠ 0 := by
    simpa [List.length_eq_zero] using hne
  have hlen1 : 1 ≤ st.index.length := Nat.one_le_iff_ne_zero.mpr hlen
  have hmin : ¬ (min k (st.index.length : Int) ≤ 0) := by
    omega
  simp only [searchVectors, toBatch, faissSearch, List.map_cons]
  rw [if_neg hlen, if_neg hmin]

/-! ### C4 — batch search returns only the first query's results -/

/-- C4 amended: on a non-empty index with `top_k ≥ 1`, and with all stored
ids distinct from the sentinel -1 (as the allocator guarantees), a batch
search returns only the FIRST query vector's results: exactly
`min(top_k, ntotal)` hits (so fewer than `top_k` when the index holds fewer
vectors), ordered by descending inner-product score, none carrying the
sentinel id.  Per-query results for the remaining vectors of the batch are
dropped (`ids[0]` is the only row read). -/
theorem batch_search_first_query_only (st : Store) (q : List ℝ) (qs : List (List ℝ))
    (k : Int) (hne : st.index ≠ []) (hk : 1 ≤ k)
    (hids : ∀ p ∈ st.index, p.1 ≠ -1) :
    ∃ l, searchVectors (QueryVec.nd2 (q :: qs)) k st = .ok l
      ∧ l = engineTopK st.index (normalizeRow q) (min k (st.index.length : Int)).toNat
      ∧ l.length = min k.toNat st.index.length
      ∧ List.Pairwise scoreGe l
      ∧ (∀ p ∈ l, p.2 ≠ -1)
      ∧ ((st.index.length : Int) < k → (l.length : Int) < k) := by
  have hnosent : ∀ p ∈ engineTopK st.index (normalizeRow q)
      (min k (st.index.length : Int)).toNat, p.2 ≠ -1 := by
    intro p hp
    obtain ⟨w, hw, he⟩ := engineTopK_ids _ _ _ p hp
    rw [he]
    exact hids w hw
  have hfilter : (engineTopK st.index (normalizeRow q)
        (min k (st.index.length : Int)).toNat).filter (fun p => !(p.2 == (-1 : Int)))
      = engineTopK st.index (normalizeRow q) (min k (st.index.length : Int)).toNat := by
    apply List.filter_eq_self.mpr
    intro p hp
    simpa using hnosent p hp
  have hlen1 : 1 ≤ st.index.length :=
    Nat.one_le_iff_ne_zero.mpr (by simpa [List.length_eq_zero] using hne)
  refine ⟨engineTopK st.index (normalizeRow q) (min k (st.index.length : Int)).toNat,
    by rw [searchVectors_nd2_ok st q qs k hne hk, hfilter], rfl, ?_,
    engineTopK_sorted _ _ _, hnosent, ?_⟩
  · rw [engineTopK_length]
    omega
  · intro hlt
    rw [engineTopK_length]
    omega

/-- C4 counterexample: on an index holding `[1, 0]` under id 0 and `[0, 1]`
under id 1, the batch query `[[1, 0], [0, 1]]` with `top_k = 1` returns only
id 0 — yet the engine's top hit for the second query vector of the batch is
id 1, which never appears in the result: per-query results beyond the first
are not returned. -/
theorem batch_search_drops_second_query :
    ((searchVectors (QueryVec.nd2 [[1, 0], [0, 1]]) 1 twoVecStore).toOption.getD []).map
        Prod.snd = [0]
    ∧ (engineTopK twoVecStore.index (normalizeRow [0, 1]) 1).map Prod.snd = [1] := by
  have hd1 : (0 : ℝ) < l2norm [1, 0] + 1e-10 := by
    have := l2norm_nonneg [1, 0]
    have h10 : (0 : ℝ) < 1e-10 := by norm_num
    linarith
  have hd2 : (0 : ℝ) < l2norm [0, 1] + 1e-10 := by
    have := l2norm_nonneg [0, 1]
    have h10 : (0 : ℝ) < 1e-10 := by norm_num
    linarith
  have dotA : dot (normalizeRow [1, 0]) [1, 0] = 1 / (l2norm [1, 0] + 1e-10) := by
    simp [dot, normalizeRow]
  have dotB : dot (normalizeRow [1, 0]) [0, 1] = 0 := by
    simp [dot, normalizeRow]
  have dotC : dot (normalizeRow [0, 1]) [1, 0] = 0 := by
    simp [dot, normalizeRow]
  have dotD : dot (normalizeRow [0, 1]) [0, 1] = 1 / (l2norm [0, 1] + 1e-10) := by
    simp [dot, normalizeRow]
  constructor
  · rw [searchVectors_nd2_ok twoVecStore [1, 0] [[0, 1]] 1 (by simp [twoVecStore])
      (le_refl 1)]
    rw [show (min (1 : Int) ((twoVecStore.index.length : Nat) : Int)).toNat = 1 by decide]
    rw [show twoVecStore.index = [(0, [1, 0]), (1, [0, 1])] from rfl]
    rw [engineTopK_pair_left 0 1 [1, 0] [0, 1] (normalizeRow [1, 0])
      (by rw [dotA, dotB]; exact le_of_lt (div_pos one_pos hd1))]
    simp [Except.toOption]
  · rw [show twoVecStore.index = [(0, [1, 0]), (1, [0, 1])] from rfl]
    rw [engineTopK_pair_right 0 1 [1, 0] [0, 1] (normalizeRow [0, 1])
      (by rw [dotC, dotD, not_le]; exact div_pos one_pos hd2)]
    simp

/-- Witness for C4 on the one-vector store with a singleton batch. -/
theorem batch_search_first_query_only_witness :
    (oneVecStore.index ≠ [] ∧ (1 : Int) ≤ 1 ∧ ∀ p ∈ oneVecStore.index, p.1 ≠ -1)
    ∧ (∃ l, searchVectors (QueryVec.nd2 [[1]]) 1 oneVecStore = .ok l
        ∧ l = engineTopK oneVecStore.index (normalizeRow [1])
            (min (1 : Int) (oneVecStore.index.length : Int)).toNat
        ∧ l.length = min (1 : Int).toNat oneVecStore.index.length
        ∧ List.Pairwise scoreGe l
        ∧ (∀ p ∈ l, p.2 ≠ -1)
        ∧ ((oneVecStore.index.length : Int) < 1 → (l.length : Int) < 1)) := by
  have h1 : oneVecStore.index ≠ [] := by simp [oneVecStore]
  have h3 : ∀ p ∈ oneVecStore.index, p.1 ≠ -1 := by
    intro p hp
    have hp' : p = ((0 : Int), [(1 : ℝ)]) := by simpa [oneVecStore] using hp
    rw [hp']
    norm_num
  exact ⟨⟨h1, le_refl 1, h3⟩,
    batch_search_first_query_only oneVecStore [1] [] 1 h1 (le_refl 1) h3⟩

/-! ### C6 — non-positive top_k is not rejected -/

/-- C6 amended: `search_vectors` never rejects `top_k ≤ 0`: there is no
validation of `top_k` in the code.  With an empty index it short-circuits to
`[]`; with a non-empty index `min(top_k, ntotal) ≤ 0` makes the engine call
raise, the `except` swallows the failure, and the caller again receives the
normal result `[]` — never an exception. -/
theorem nonpositive_topk_returns_empty (query : QueryVec) (k : Int) (st : Store)
    (hq : (toBatch query).isSome = true) (hk : k ≤ 0) :
    searchVectors query k st = .ok [] := by
  obtain ⟨qs, hqs⟩ := Option.isSome_iff_exists.mp hq
  by_cases hidx : st.index.length = 0
  · simp [searchVectors, hqs, hidx]
  · have hmin : min k (st.index.length : Int) ≤ 0 :=
      le_trans (min_le_left _ _) hk
    simp only [searchVectors, faissSearch, hqs]
    rw [if_neg hidx, if_pos hmin]

/-- C6 counterexample: on a concrete non-empty index, a valid 1-D query with
`top_k = 0` produces the normal result `[]` — the call is not rejected. -/
theorem nonpositive_topk_cex :
    searchVectors (QueryVec.nd1 [1]) 0 oneVecStore = .ok []
    ∧ oneVecStore.index ≠ [] := by
  constructor
  · rfl
  · simp [oneVecStore]

/-- Witness for C6: the amended theorem at the same concrete input. -/
theorem nonpositive_topk_returns_empty_witness :
    ((toBatch (QueryVec.nd1 [1])).isSome = true ∧ (0 : Int) ≤ 0)
    ∧ searchVectors (QueryVec.nd1 [1]) 0 oneVecStore = .ok [] :=
  ⟨⟨rfl, le_refl 0⟩,
   nonpositive_topk_returns_empty (QueryVec.nd1 [1]) 0 oneVecStore rfl (le_refl 0)⟩

end ResumeStore

end
